import Mathlib

/-!
Verification of the aggregation/statistics engine of a school grade-management
application.  The JavaScript source keeps students, modules, grades and
absences as flat collections; grades and absences are lists of fact records
keyed by (studentId, moduleId).  We embed the relevant functions over lists,
with JavaScript numbers modelled as rationals and JavaScript objects (used as
maps from module ids to values) modelled as association lists where assignment
overwrites the value at an existing key.
-/

namespace School

/-- A student record (data.js): only the numeric id matters for aggregation. -/
structure Student where
  id : Nat
  deriving DecidableEq, Repr

/-- A module record (data.js): numeric id, name, weighting coefficient. -/
structure Module where
  id : Nat
  name : String
  coefficient : ℚ
  deriving DecidableEq, Repr

/-- A grade fact (data.js): `{studentId, moduleId, grade}`. -/
structure GradeFact where
  studentId : Nat
  moduleId : Nat
  grade : ℚ
  deriving DecidableEq, Repr

/-- An absence fact (data.js): `{studentId, moduleId, count}`. -/
structure AbsenceFact where
  studentId : Nat
  moduleId : Nat
  count : Nat
  deriving DecidableEq, Repr

/-- JavaScript `Math.round`: round half toward positive infinity. -/
def jsRound (q : ℚ) : ℤ := ⌊q + 1 / 2⌋

/-- JavaScript object assignment `obj[k] = v` on an association list:
overwrite the value at an existing key, otherwise append a new entry. -/
def upsert {α : Type} : List (Nat × α) → Nat → α → List (Nat × α)
  | [], k, v => [(k, v)]
  | (k', v') :: rest, k, v =>
      if k' = k then (k, v) :: rest else (k', v') :: upsert rest k v

/-- JavaScript object read `obj[k]`: `none` models `undefined`. -/
def lookupKV {α : Type} : List (Nat × α) → Nat → Option α
  | [], _ => none
  | (k', v) :: rest, k => if k' = k then some v else lookupKV rest k

/-- `getStudentGrades` (data.js): build the object mapping moduleId to grade
for one student by iterating over all grade facts. -/
def getStudentGrades (grades : List GradeFact) (studentId : Nat) :
    List (Nat × ℚ) :=
  grades.foldl
    (fun acc g =>
      if g.studentId = studentId then upsert acc g.moduleId g.grade else acc)
    []

/-- `calculateStudentAverage` (dashboard.js): weighted average of the grades
the student has, `none` when no modules, no grades, or zero coefficient sum. -/
def calculateStudentAverage (modules : List Module) (grades : List GradeFact)
    (studentId : Nat) : Option ℚ :=
  let studentGrades := getStudentGrades grades studentId
  if modules.length = 0 ∨ studentGrades.length = 0 then none
  else
    let t := modules.foldl
      (fun acc m =>
        match lookupKV studentGrades m.id with
        | some grade => (acc.1 + grade * m.coefficient, acc.2 + m.coefficient)
        | none => acc)
      ((0 : ℚ), (0 : ℚ))
    if t.2 = 0 then none else some (t.1 / t.2)

/-- Specification-side numerator: sum of grade times coefficient over the
modules that have a recorded grade for the student. -/
def totalPoints (studentGrades : List (Nat × ℚ)) : List Module → ℚ
  | [] => 0
  | m :: rest =>
      (match lookupKV studentGrades m.id with
       | some grade => grade * m.coefficient
       | none => 0) + totalPoints studentGrades rest

/-- Specification-side denominator: sum of the coefficients of the modules
that have a recorded grade for the student. -/
def totalCoefficient (studentGrades : List (Nat × ℚ)) : List Module → ℚ
  | [] => 0
  | m :: rest =>
      (match lookupKV studentGrades m.id with
       | some _ => m.coefficient
       | none => 0) + totalCoefficient studentGrades rest

/-- The one-pass fold of `calculateStudentAverage` computes exactly the pair
of specification-side sums. -/
theorem foldl_totals (studentGrades : List (Nat × ℚ)) (modules : List Module)
    (acc : ℚ × ℚ) :
    modules.foldl
      (fun acc m =>
        match lookupKV studentGrades m.id with
        | some grade => (acc.1 + grade * m.coefficient, acc.2 + m.coefficient)
        | none => acc)
      acc
    = (acc.1 + totalPoints studentGrades modules,
       acc.2 + totalCoefficient studentGrades modules) := by
  induction modules generalizing acc with
  | nil => simp [totalPoints, totalCoefficient]
  | cons m rest ih =>
      simp only [List.foldl_cons, totalPoints, totalCoefficient]
      cases h : lookupKV studentGrades m.id with
      | none => rw [ih]; ring_nf
      | some g => rw [ih]; ring_nf

/-- Every entry of an upserted association list is an old entry or the new one. -/
theorem mem_upsert {α : Type} (l : List (Nat × α)) (k : Nat) (v : α)
    (p : Nat × α) (hp : p ∈ upsert l k v) : p ∈ l ∨ p = (k, v) := by
  revert hp
  induction l with
  | nil => intro hp; simpa [upsert] using hp
  | cons q rest ih =>
      intro hp
      rcases q with ⟨k', v'⟩
      by_cases h : k' = k
      · simp only [upsert, if_pos h] at hp
        rcases List.mem_cons.mp hp with hp1 | hp1
        · right; exact hp1
        · left; exact List.mem_cons_of_mem _ hp1
      · simp only [upsert, if_neg h] at hp
        rcases List.mem_cons.mp hp with hp1 | hp1
        · left; exact hp1 ▸ List.mem_cons_self _ _
        · rcases ih hp1 with h1 | h1
          · left; exact List.mem_cons_of_mem _ h1
          · right; exact h1

/-- An upserted association list is never empty. -/
theorem upsert_ne_nil {α : Type} (l : List (Nat × α)) (k : Nat) (v : α) :
    upsert l k v ≠ [] := by
  cases l with
  | nil => simp [upsert]
  | cons q rest =>
      rcases q with ⟨k', v'⟩
      by_cases h : k' = k <;> simp [upsert, h]

/-- A successful association-list lookup returns a stored entry. -/
theorem lookupKV_mem {α : Type} (l : List (Nat × α)) (k : Nat) (v : α)
    (h : lookupKV l k = some v) : (k, v) ∈ l := by
  revert h
  induction l with
  | nil => intro h; simp [lookupKV] at h
  | cons q rest ih =>
      intro h
      rcases q with ⟨k', v'⟩
      by_cases hk : k' = k
      · simp only [lookupKV, if_pos hk] at h
        subst hk
        exact (Option.some_inj.mp h) ▸ List.mem_cons_self _ _
      · simp only [lookupKV, if_neg hk] at h
        exact List.mem_cons_of_mem _ (ih h)

/-- Every entry of the per-student grade object comes from a grade fact of
that student. -/
theorem mem_getStudentGrades (grades : List GradeFact) (sid : Nat)
    (p : Nat × ℚ) (hp : p ∈ getStudentGrades grades sid) :
    ∃ g ∈ grades, g.studentId = sid ∧ p = (g.moduleId, g.grade) := by
  suffices h : ∀ (l : List GradeFact) (acc : List (Nat × ℚ)),
      p ∈ l.foldl
        (fun acc g =>
          if g.studentId = sid then upsert acc g.moduleId g.grade else acc)
        acc →
      p ∈ acc ∨ ∃ g ∈ l, g.studentId = sid ∧ p = (g.moduleId, g.grade) by
    rcases h grades [] hp with h1 | h1
    · simp at h1
    · exact h1
  intro l
  induction l with
  | nil => intro acc hacc; left; simpa using hacc
  | cons g rest ih =>
      intro acc hacc
      simp only [List.foldl_cons] at hacc
      by_cases hg : g.studentId = sid
      · rw [if_pos hg] at hacc
        rcases ih _ hacc with h1 | h1
        · rcases mem_upsert _ _ _ _ h1 with h2 | h2
          · left; exact h2
          · right; exact ⟨g, List.mem_cons_self _ _, hg, h2⟩
        · rcases h1 with ⟨g', hg', h2, h3⟩
          right; exact ⟨g', List.mem_cons_of_mem _ hg', h2, h3⟩
      · rw [if_neg hg] at hacc
        rcases ih _ hacc with h1 | h1
        · left; exact h1
        · rcases h1 with ⟨g', hg', h2, h3⟩
          right; exact ⟨g', List.mem_cons_of_mem _ hg', h2, h3⟩

/-- If the student has at least one grade fact, the grade object is nonempty. -/
theorem getStudentGrades_ne_nil (grades : List GradeFact) (sid : Nat)
    (hex : ∃ g ∈ grades, g.studentId = sid) :
    getStudentGrades grades sid ≠ [] := by
  suffices hpre : ∀ (l : List GradeFact) (acc : List (Nat × ℚ)),
      acc ≠ [] ∨ (∃ g ∈ l, g.studentId = sid) →
      l.foldl
        (fun acc g =>
          if g.studentId = sid then upsert acc g.moduleId g.grade else acc)
        acc ≠ [] by
    exact hpre grades [] (Or.inr hex)
  intro l
  induction l with
  | nil =>
      intro acc hacc
      rcases hacc with h | h
      · simpa using h
      · simp at h
  | cons g rest ih =>
      intro acc hacc
      simp only [List.foldl_cons]
      by_cases hg : g.studentId = sid
      · rw [if_pos hg]
        exact ih _ (Or.inl (upsert_ne_nil _ _ _))
      · rw [if_neg hg]
        rcases hacc with h | h
        · exact ih _ (Or.inl h)
        · rcases h with ⟨g', hg', h2⟩
          rcases List.mem_cons.mp hg' with h3 | h3
          · exact absurd (h3 ▸ h2) hg
          · exact ih _ (Or.inr ⟨g', h3, h2⟩)

/-- If no module of the list finds a grade, the coefficient sum is zero. -/
theorem totalCoefficient_eq_zero (studentGrades : List (Nat × ℚ))
    (modules : List Module)
    (h : ∀ m ∈ modules, lookupKV studentGrades m.id = none) :
    totalCoefficient studentGrades modules = 0 := by
  induction modules with
  | nil => rfl
  | cons m rest ih =>
      simp only [totalCoefficient]
      rw [h m (List.mem_cons_self _ _),
        ih (fun m' hm' => h m' (List.mem_cons_of_mem _ hm'))]
      simp

/-- With an empty grade object the coefficient sum is zero. -/
theorem totalCoefficient_nil (modules : List Module) :
    totalCoefficient [] modules = 0 :=
  totalCoefficient_eq_zero [] modules (fun _ _ => rfl)

/-- Closed form of `calculateStudentAverage` in terms of the two sums. -/
theorem calculateStudentAverage_eq (modules : List Module)
    (grades : List GradeFact) (sid : Nat) :
    calculateStudentAverage modules grades sid =
      if modules.length = 0 ∨ (getStudentGrades grades sid).length = 0 then
        none
      else if totalCoefficient (getStudentGrades grades sid) modules = 0 then
        none
      else
        some (totalPoints (getStudentGrades grades sid) modules /
              totalCoefficient (getStudentGrades grades sid) modules) := by
  simp only [calculateStudentAverage]
  rw [foldl_totals]
  simp

/-- Claim C2: `calculateStudentAverage` returns the absent value exactly when
the accumulated coefficient denominator is zero; in particular it is absent
whenever no modules are defined, and whenever every grade fact of the student
references a module id not present in the module list. -/
theorem calculateStudentAverage_none_iff (modules : List Module)
    (grades : List GradeFact) (sid : Nat) :
    (calculateStudentAverage modules grades sid = none ↔
      totalCoefficient (getStudentGrades grades sid) modules = 0)
    ∧ (modules = [] → calculateStudentAverage modules grades sid = none)
    ∧ ((∀ g ∈ grades, g.studentId = sid → ∀ m ∈ modules, m.id ≠ g.moduleId) →
        calculateStudentAverage modules grades sid = none) := by
  have key : calculateStudentAverage modules grades sid = none ↔
      totalCoefficient (getStudentGrades grades sid) modules = 0 := by
    rw [calculateStudentAverage_eq]
    by_cases h : modules.length = 0 ∨ (getStudentGrades grades sid).length = 0
    · rw [if_pos h]
      constructor
      · intro _
        rcases h with h | h
        · rw [List.length_eq_zero.mp h]
          rfl
        · rw [List.length_eq_zero.mp h]
          exact totalCoefficient_nil _
      · intro _
        rfl
    · rw [if_neg h]
      by_cases hden :
          totalCoefficient (getStudentGrades grades sid) modules = 0
      · rw [if_pos hden]
        simp [hden]
      · rw [if_neg hden]
        simp [hden]
  refine ⟨key, ?_, ?_⟩
  · intro hmod
    subst hmod
    exact key.mpr rfl
  · intro horphan
    apply key.mpr
    apply totalCoefficient_eq_zero
    intro m hm
    cases hl : lookupKV (getStudentGrades grades sid) m.id with
    | none => rfl
    | some v =>
        exfalso
        obtain ⟨g, hg, hgs, hpe⟩ :=
          mem_getStudentGrades grades sid _ (lookupKV_mem _ _ _ hl)
        exact horphan g hg hgs m hm (congrArg Prod.fst hpe)

/-- Witness for claim C2: with zero modules the average is absent even though
an (orphan) grade fact exists. -/
theorem calculateStudentAverage_none_iff_witness :
    calculateStudentAverage [] [⟨1, 1, 15⟩] 1 = none :=
  (calculateStudentAverage_none_iff [] [⟨1, 1, 15⟩] 1).2.1 rfl

/-- Bounds on the two sums when grades lie in [0, 20] and coefficients are
positive. -/
theorem totals_bounds (studentGrades : List (Nat × ℚ)) (modules : List Module)
    (hv : ∀ p ∈ studentGrades, 0 ≤ p.2 ∧ p.2 ≤ 20)
    (hc : ∀ m ∈ modules, 0 < m.coefficient) :
    0 ≤ totalPoints studentGrades modules ∧
    totalPoints studentGrades modules ≤
      20 * totalCoefficient studentGrades modules ∧
    0 ≤ totalCoefficient studentGrades modules := by
  induction modules with
  | nil => norm_num [totalPoints, totalCoefficient]
  | cons m rest ih =>
      obtain ⟨ih1, ih2, ih3⟩ :=
        ih (fun m' hm' => hc m' (List.mem_cons_of_mem _ hm'))
      have hcm := hc m (List.mem_cons_self _ _)
      cases hl : lookupKV studentGrades m.id with
      | none =>
          simp only [totalPoints, totalCoefficient, hl]
          refine ⟨by ring_nf; linarith, by ring_nf; linarith,
            by ring_nf; linarith⟩
      | some v =>
          have hb1 : (0 : ℚ) ≤ v := (hv (m.id, v) (lookupKV_mem _ _ _ hl)).1
          have hb2 : v ≤ 20 := (hv (m.id, v) (lookupKV_mem _ _ _ hl)).2
          have h1 : v * m.coefficient ≤ 20 * m.coefficient :=
            mul_le_mul_of_nonneg_right hb2 hcm.le
          have h2 : 0 ≤ v * m.coefficient := mul_nonneg hb1 hcm.le
          simp only [totalPoints, totalCoefficient, hl]
          refine ⟨by ring_nf; linarith, by ring_nf; linarith,
            by ring_nf; linarith⟩

/-- Claim C1: when the student has a grade on an existing module and the
graded coefficient sum is positive, the average is exactly the weighted sum
of grades divided by the coefficient sum; and when all grades lie in [0, 20]
and all coefficients are positive, that value lies in [0, 20]. -/
theorem calculateStudentAverage_formula (modules : List Module)
    (grades : List GradeFact) (sid : Nat)
    (hex : ∃ g ∈ grades, g.studentId = sid ∧ ∃ m ∈ modules, m.id = g.moduleId)
    (hden : 0 < totalCoefficient (getStudentGrades grades sid) modules) :
    calculateStudentAverage modules grades sid =
      some (totalPoints (getStudentGrades grades sid) modules /
            totalCoefficient (getStudentGrades grades sid) modules)
    ∧ ((∀ g ∈ grades, 0 ≤ g.grade ∧ g.grade ≤ 20) →
        (∀ m ∈ modules, 0 < m.coefficient) →
        0 ≤ totalPoints (getStudentGrades grades sid) modules /
            totalCoefficient (getStudentGrades grades sid) modules ∧
        totalPoints (getStudentGrades grades sid) modules /
            totalCoefficient (getStudentGrades grades sid) modules ≤ 20) := by
  constructor
  · rw [calculateStudentAverage_eq]
    have hmod : ¬ modules.length = 0 := by
      intro h0
      rw [List.length_eq_zero.mp h0] at hden
      simp [totalCoefficient] at hden
    have hsg : ¬ (getStudentGrades grades sid).length = 0 := by
      intro h0
      obtain ⟨g, hgmem, hgs, _⟩ := hex
      exact getStudentGrades_ne_nil grades sid ⟨g, hgmem, hgs⟩
        (List.length_eq_zero.mp h0)
    rw [if_neg (not_or.mpr ⟨hmod, hsg⟩), if_neg (ne_of_gt hden)]
  · intro hg hc
    have hv : ∀ p ∈ getStudentGrades grades sid, 0 ≤ p.2 ∧ p.2 ≤ 20 := by
      intro p hp
      obtain ⟨g', hg', _, hpe⟩ := mem_getStudentGrades grades sid p hp
      rw [hpe]
      exact hg g' hg'
    obtain ⟨h1, h2, _⟩ := totals_bounds _ modules hv hc
    refine ⟨div_nonneg h1 hden.le, ?_⟩
    rw [div_le_iff₀ hden]
    linarith

/-- Witness for claim C1: modules Math (coefficient 2) and Physics
(coefficient 1), grades 12 and 18 give average 14 and the bounds hold. -/
theorem calculateStudentAverage_formula_witness :
    calculateStudentAverage [⟨1, "Math", 2⟩, ⟨2, "Physics", 1⟩]
        [⟨7, 1, 12⟩, ⟨7, 2, 18⟩] 7 =
      some (totalPoints
              (getStudentGrades [⟨7, 1, 12⟩, ⟨7, 2, 18⟩] 7)
              [⟨1, "Math", 2⟩, ⟨2, "Physics", 1⟩] /
            totalCoefficient
              (getStudentGrades [⟨7, 1, 12⟩, ⟨7, 2, 18⟩] 7)
              [⟨1, "Math", 2⟩, ⟨2, "Physics", 1⟩])
    ∧ 0 ≤ totalPoints
            (getStudentGrades [⟨7, 1, 12⟩, ⟨7, 2, 18⟩] 7)
            [⟨1, "Math", 2⟩, ⟨2, "Physics", 1⟩] /
          totalCoefficient
            (getStudentGrades [⟨7, 1, 12⟩, ⟨7, 2, 18⟩] 7)
            [⟨1, "Math", 2⟩, ⟨2, "Physics", 1⟩] := by
  have h := calculateStudentAverage_formula
    [⟨1, "Math", 2⟩, ⟨2, "Physics", 1⟩] [⟨7, 1, 12⟩, ⟨7, 2, 18⟩] 7
    (by refine ⟨⟨7, 1, 12⟩, by simp, rfl, ⟨1, "Math", 2⟩, by simp, rfl⟩)
    (by norm_num [getStudentGrades, upsert, lookupKV, totalCoefficient,
      List.foldl])
  exact ⟨h.1, (h.2 (by norm_num) (by norm_num)).1⟩

/-- `getMention` (dashboard.js): map an average to one of five mention
labels, evaluated highest band first. -/
def getMention (average : ℚ) : String :=
  if average ≥ 16 then "Très Bien"
  else if average ≥ 14 then "Bien"
  else if average ≥ 12 then "Assez Bien"
  else if average ≥ 10 then "Passable"
  else "Ajourné"

/-- Claim C3: `getMention` realises the five-band partition with inclusive
lower bounds, each label returned exactly on its band, so exactly one band
applies to any rational input. -/
theorem getMention_partition (a : ℚ) :
    (getMention a = "Très Bien" ↔ 16 ≤ a)
    ∧ (getMention a = "Bien" ↔ 14 ≤ a ∧ a < 16)
    ∧ (getMention a = "Assez Bien" ↔ 12 ≤ a ∧ a < 14)
    ∧ (getMention a = "Passable" ↔ 10 ≤ a ∧ a < 12)
    ∧ (getMention a = "Ajourné" ↔ a < 10) := by
  unfold getMention
  split_ifs with h1 h2 h3 h4 <;>
    refine ⟨?_, ?_, ?_, ?_, ?_⟩ <;>
      simp <;>
        first
          | linarith
          | (constructor <;> linarith)
          | (intro h; linarith)

/-- `getAllStudentsWithAverages` (dashboard.js): pair each student with their
computed average and keep only those whose average is present. -/
def getAllStudentsWithAverages (students : List Student)
    (modules : List Module) (grades : List GradeFact) : List (Student × ℚ) :=
  students.filterMap
    (fun s => (calculateStudentAverage modules grades s.id).map (fun a => (s, a)))

/-- `findBestStudent` (dashboard.js): reduce keeping the strictly greater
average, so the first-encountered maximum wins. -/
def findBestStudent (students : List Student) (modules : List Module)
    (grades : List GradeFact) : Option (Student × ℚ) :=
  match getAllStudentsWithAverages students modules grades with
  | [] => none
  | x :: xs =>
      some (xs.foldl (fun best cur => if best.2 < cur.2 then cur else best) x)

/-- `findWorstStudent` (dashboard.js): reduce keeping the strictly smaller
average, so the first-encountered minimum wins. -/
def findWorstStudent (students : List Student) (modules : List Module)
    (grades : List GradeFact) : Option (Student × ℚ) :=
  match getAllStudentsWithAverages students modules grades with
  | [] => none
  | x :: xs =>
      some (xs.foldl (fun worst cur => if cur.2 < worst.2 then cur else worst) x)

/-- The strictly-greater selection fold returns the first-encountered maximum:
the list splits around the result with strictly smaller keys before it and no
greater key after it. -/
theorem foldl_select_max {α : Type} (f : α → ℚ) (xs : List α) : ∀ x : α,
    ∃ l₁ l₂,
      x :: xs = l₁ ++ xs.foldl (fun b c => if f b < f c then c else b) x :: l₂
      ∧ (∀ q ∈ l₁, f q < f (xs.foldl (fun b c => if f b < f c then c else b) x))
      ∧ ∀ q ∈ l₂, f q ≤ f (xs.foldl (fun b c => if f b < f c then c else b) x) := by
  induction xs with
  | nil =>
      intro x
      exact ⟨[], [], rfl, by simp, by simp⟩
  | cons y ys ih =>
      intro x
      simp only [List.foldl_cons]
      by_cases hxy : f x < f y
      · rw [if_pos hxy]
        obtain ⟨l₁, l₂, heq, hlt, hle⟩ := ih y
        refine ⟨x :: l₁, l₂, ?_, ?_, hle⟩
        · rw [List.cons_append, ← heq]
        · intro q hq
          rcases List.mem_cons.mp hq with hq | hq
          · subst hq
            cases l₁ with
            | nil =>
                injection heq with h1 _
                rw [← h1]
                exact hxy
            | cons z l₁t =>
                injection heq with h1 _
                have hzr := hlt z (List.mem_cons_self _ _)
                rw [← h1] at hzr
                exact hxy.trans hzr
          · exact hlt q hq
      · rw [if_neg hxy]
        have hyx : f y ≤ f x := le_of_not_lt hxy
        obtain ⟨l₁, l₂, heq, hlt, hle⟩ := ih x
        cases l₁ with
        | nil =>
            injection heq with h1 h2
            refine ⟨[], y :: ys, ?_, by simp, ?_⟩
            · rw [List.nil_append, ← h1]
            · intro q hq
              rcases List.mem_cons.mp hq with hq | hq
              · subst hq
                rw [← h1]
                exact hyx
              · rw [← h1]
                rw [← h1] at hle
                exact hle q (h2 ▸ hq)
        | cons z l₁t =>
            injection heq with h1 h2
            have hxr : f x <
                f (List.foldl (fun b c => if f b < f c then c else b) x ys) :=
              h1 ▸ hlt z (List.mem_cons_self _ _)
            rw [List.append_eq_has_append] at h2
            refine ⟨x :: y :: l₁t, l₂, ?_, ?_, hle⟩
            · rw [List.cons_append, List.cons_append, ← h2]
            · intro q hq
              rcases List.mem_cons.mp hq with hq | hq
              · subst hq
                exact hxr
              · rcases List.mem_cons.mp hq with hq2 | hq2
                · subst hq2
                  exact lt_of_le_of_lt hyx hxr
                · exact hlt q (h1 ▸ List.mem_cons_of_mem _ hq2)

/-- The strictly-smaller selection fold returns the first-encountered minimum. -/
theorem foldl_select_min {α : Type} (f : α → ℚ) (xs : List α) : ∀ x : α,
    ∃ l₁ l₂,
      x :: xs = l₁ ++ xs.foldl (fun b c => if f c < f b then c else b) x :: l₂
      ∧ (∀ q ∈ l₁, f (xs.foldl (fun b c => if f c < f b then c else b) x) < f q)
      ∧ ∀ q ∈ l₂, f (xs.foldl (fun b c => if f c < f b then c else b) x) ≤ f q := by
  induction xs with
  | nil =>
      intro x
      exact ⟨[], [], rfl, by simp, by simp⟩
  | cons y ys ih =>
      intro x
      simp only [List.foldl_cons]
      by_cases hxy : f y < f x
      · rw [if_pos hxy]
        obtain ⟨l₁, l₂, heq, hlt, hle⟩ := ih y
        refine ⟨x :: l₁, l₂, ?_, ?_, hle⟩
        · rw [List.cons_append, ← heq]
        · intro q hq
          rcases List.mem_cons.mp hq with hq | hq
          · subst hq
            cases l₁ with
            | nil =>
                injection heq with h1 _
                rw [← h1]
                exact hxy
            | cons z l₁t =>
                injection heq with h1 _
                have hzr := hlt z (List.mem_cons_self _ _)
                rw [← h1] at hzr
                exact hzr.trans hxy
          · exact hlt q hq
      · rw [if_neg hxy]
        have hyx : f x ≤ f y := le_of_not_lt hxy
        obtain ⟨l₁, l₂, heq, hlt, hle⟩ := ih x
        cases l₁ with
        | nil =>
            injection heq with h1 h2
            refine ⟨[], y :: ys, ?_, by simp, ?_⟩
            · rw [List.nil_append, ← h1]
            · intro q hq
              rcases List.mem_cons.mp hq with hq | hq
              · subst hq
                rw [← h1]
                exact hyx
              · rw [← h1]
                rw [← h1] at hle
                exact hle q (h2 ▸ hq)
        | cons z l₁t =>
            injection heq with h1 h2
            have hxr : f (List.foldl (fun b c => if f c < f b then c else b) x ys)
                < f x :=
              h1 ▸ hlt z (List.mem_cons_self _ _)
            rw [List.append_eq_has_append] at h2
            refine ⟨x :: y :: l₁t, l₂, ?_, ?_, hle⟩
            · rw [List.cons_append, List.cons_append, ← h2]
            · intro q hq
              rcases List.mem_cons.mp hq with hq | hq
              · subst hq
                exact hxr
              · rcases List.mem_cons.mp hq with hq2 | hq2
                · subst hq2
                  exact lt_of_lt_of_le hxr hyx
                · exact hlt q (h1 ▸ List.mem_cons_of_mem _ hq2)

/-- Membership in the averaged-student list characterises students with a
computed average. -/
theorem mem_getAllStudentsWithAverages (students : List Student)
    (modules : List Module) (grades : List GradeFact) (p : Student × ℚ)
    (hp : p ∈ getAllStudentsWithAverages students modules grades) :
    p.1 ∈ students ∧ calculateStudentAverage modules grades p.1.id = some p.2 := by
  unfold getAllStudentsWithAverages at hp
  rcases List.mem_filterMap.mp hp with ⟨s, hs, hmap⟩
  rcases Option.map_eq_some'.mp hmap with ⟨a, ha, hpa⟩
  subst hpa
  exact ⟨hs, ha⟩

/-- The averaged-student list is empty exactly when no student has an
average. -/
theorem getAllStudentsWithAverages_eq_nil (students : List Student)
    (modules : List Module) (grades : List GradeFact) :
    getAllStudentsWithAverages students modules grades = [] ↔
      ∀ s ∈ students, calculateStudentAverage modules grades s.id = none := by
  unfold getAllStudentsWithAverages
  rw [List.filterMap_eq_nil_iff]
  constructor
  · intro h s hs
    have := h s hs
    exact Option.map_eq_none'.mp this
  · intro h s hs
    rw [h s hs]
    rfl

/-- Claim C7: `findBestStudent` returns the first-encountered student whose
average attains the maximum among students with a computed average, and
`findWorstStudent` the first-encountered minimum; students without an average
are never returned, and both are absent exactly when no student has one. -/
theorem findBestStudent_findWorstStudent_spec (students : List Student)
    (modules : List Module) (grades : List GradeFact) :
    (findBestStudent students modules grades = none ↔
      ∀ s ∈ students, calculateStudentAverage modules grades s.id = none)
    ∧ (findWorstStudent students modules grades = none ↔
      ∀ s ∈ students, calculateStudentAverage modules grades s.id = none)
    ∧ (∀ p, findBestStudent students modules grades = some p →
        p.1 ∈ students
        ∧ calculateStudentAverage modules grades p.1.id = some p.2
        ∧ ∃ l₁ l₂, getAllStudentsWithAverages students modules grades
            = l₁ ++ p :: l₂
          ∧ (∀ q ∈ l₁, q.2 < p.2) ∧ ∀ q ∈ l₂, q.2 ≤ p.2)
    ∧ ∀ p, findWorstStudent students modules grades = some p →
        p.1 ∈ students
        ∧ calculateStudentAverage modules grades p.1.id = some p.2
        ∧ ∃ l₁ l₂, getAllStudentsWithAverages students modules grades
            = l₁ ++ p :: l₂
          ∧ (∀ q ∈ l₁, p.2 < q.2) ∧ ∀ q ∈ l₂, p.2 ≤ q.2 := by
  refine ⟨?_, ?_, ?_, ?_⟩
  · rw [← getAllStudentsWithAverages_eq_nil students modules grades]
    unfold findBestStudent
    cases getAllStudentsWithAverages students modules grades with
    | nil => simp
    | cons x xs => simp
  · rw [← getAllStudentsWithAverages_eq_nil students modules grades]
    unfold findWorstStudent
    cases getAllStudentsWithAverages students modules grades with
    | nil => simp
    | cons x xs => simp
  · intro p hp
    unfold findBestStudent at hp
    cases hswa : getAllStudentsWithAverages students modules grades with
    | nil => rw [hswa] at hp; simp at hp
    | cons x xs =>
        rw [hswa] at hp
        simp only [Option.some_inj] at hp
        obtain ⟨l₁, l₂, heq, hlt, hle⟩ :=
          foldl_select_max (fun q : Student × ℚ => q.2) xs x
        rw [hp] at heq hlt hle
        have hmem : p ∈ getAllStudentsWithAverages students modules grades := by
          rw [hswa, heq]
          exact List.mem_append_right _ (List.mem_cons_self _ _)
        obtain ⟨hmem1, hmem2⟩ :=
          mem_getAllStudentsWithAverages students modules grades p hmem
        exact ⟨hmem1, hmem2, l₁, l₂, heq, hlt, hle⟩
  · intro p hp
    unfold findWorstStudent at hp
    cases hswa : getAllStudentsWithAverages students modules grades with
    | nil => rw [hswa] at hp; simp at hp
    | cons x xs =>
        rw [hswa] at hp
        simp only [Option.some_inj] at hp
        obtain ⟨l₁, l₂, heq, hlt, hle⟩ :=
          foldl_select_min (fun q : Student × ℚ => q.2) xs x
        rw [hp] at heq hlt hle
        have hmem : p ∈ getAllStudentsWithAverages students modules grades := by
          rw [hswa, heq]
          exact List.mem_append_right _ (List.mem_cons_self _ _)
        obtain ⟨hmem1, hmem2⟩ :=
          mem_getAllStudentsWithAverages students modules grades p hmem
        exact ⟨hmem1, hmem2, l₁, l₂, heq, hlt, hle⟩

/-- Witness for claim C7: with averages 10 and 15, the best student is the
second one, a member of the cohort with computed average 15. -/
theorem findBestStudent_findWorstStudent_spec_witness :
    (⟨2⟩ : Student) ∈ [(⟨1⟩ : Student), ⟨2⟩]
    ∧ calculateStudentAverage [⟨1, "M", 1⟩] [⟨1, 1, 10⟩, ⟨2, 1, 15⟩] 2 =
      some 15 := by
  have h := (findBestStudent_findWorstStudent_spec [⟨1⟩, ⟨2⟩] [⟨1, "M", 1⟩]
      [⟨1, 1, 10⟩, ⟨2, 1, 15⟩]).2.2.1 (⟨2⟩, 15)
      (by norm_num [findBestStudent, getAllStudentsWithAverages,
        calculateStudentAverage, getStudentGrades, upsert, lookupKV,
        List.filterMap, List.foldl])
  exact ⟨h.1, h.2.1⟩

/-- Pass test of `calculateSuccessRate` (dashboard.js): a student passes when
their average is present and at least 10. -/
def studentPassed (modules : List Module) (grades : List GradeFact)
    (s : Student) : Bool :=
  match calculateStudentAverage modules grades s.id with
  | some a => decide (10 ≤ a)
  | none => false

/-- `calculateSuccessRate` (dashboard.js): rounded percentage of passing
students over the whole cohort, 0 for an empty cohort. -/
def calculateSuccessRate (students : List Student) (modules : List Module)
    (grades : List GradeFact) : ℤ :=
  if students.length = 0 then 0
  else
    jsRound (((students.countP (studentPassed modules grades) : ℚ)) /
      (students.length : ℚ) * 100)

/-- Specification-side count of students whose computed average is at
least 10. -/
def passedCount (modules : List Module) (grades : List GradeFact) :
    List Student → ℕ
  | [] => 0
  | s :: rest =>
      (match calculateStudentAverage modules grades s.id with
       | some a => if 10 ≤ a then 1 else 0
       | none => 0) + passedCount modules grades rest

/-- Unfolding equation of `passedCount` on a cons cell. -/
theorem passedCount_cons (modules : List Module) (grades : List GradeFact)
    (s : Student) (rest : List Student) :
    passedCount modules grades (s :: rest) =
      (match calculateStudentAverage modules grades s.id with
       | some a => if (10 : ℚ) ≤ a then 1 else 0
       | none => 0) + passedCount modules grades rest := rfl

/-- The boolean count of the code agrees with the specification-side count. -/
theorem countP_studentPassed (modules : List Module) (grades : List GradeFact)
    (students : List Student) :
    students.countP (studentPassed modules grades) =
      passedCount modules grades students := by
  induction students with
  | nil => rfl
  | cons s rest ih =>
      rw [List.countP_cons, ih, passedCount_cons]
      unfold studentPassed
      cases calculateStudentAverage modules grades s.id with
      | none => simp
      | some a =>
          by_cases h : (10 : ℚ) ≤ a
          · simp [h, Nat.add_comm]
          · simp [h]

/-- Every student passing forces the count to be the cohort size. -/
theorem passedCount_all (modules : List Module) (grades : List GradeFact)
    (students : List Student)
    (h : ∀ s ∈ students, ∃ a,
      calculateStudentAverage modules grades s.id = some a ∧ 10 ≤ a) :
    passedCount modules grades students = students.length := by
  induction students with
  | nil => rfl
  | cons s rest ih =>
      obtain ⟨a, ha, h10⟩ := h s (List.mem_cons_self _ _)
      rw [passedCount_cons]
      simp only [ha]
      rw [if_pos h10, ih (fun s' hs' => h s' (List.mem_cons_of_mem _ hs'))]
      simp [List.length_cons]
      omega

/-- Claim C4: `calculateSuccessRate` is the rounded percentage of students
with computed average at least 10 over the full cohort size; it is 0 for an
empty cohort and 100 when every student has a computed average at least 10. -/
theorem calculateSuccessRate_spec (students : List Student)
    (modules : List Module) (grades : List GradeFact) :
    (students = [] → calculateSuccessRate students modules grades = 0)
    ∧ (students ≠ [] →
        calculateSuccessRate students modules grades =
          jsRound ((passedCount modules grades students : ℚ) /
            (students.length : ℚ) * 100))
    ∧ (students ≠ [] →
        (∀ s ∈ students, ∃ a,
          calculateStudentAverage modules grades s.id = some a ∧ 10 ≤ a) →
        calculateSuccessRate students modules grades = 100) := by
  have hformula : students ≠ [] →
      calculateSuccessRate students modules grades =
        jsRound ((passedCount modules grades students : ℚ) /
          (students.length : ℚ) * 100) := by
    intro hne
    unfold calculateSuccessRate
    rw [if_neg (fun h0 => hne (List.length_eq_zero.mp h0)),
      countP_studentPassed]
  refine ⟨?_, hformula, ?_⟩
  · intro he
    subst he
    rfl
  · intro hne hall
    rw [hformula hne, passedCount_all modules grades students hall]
    have hlen : (students.length : ℚ) ≠ 0 := by
      intro h0
      exact hne (List.length_eq_zero.mp (by exact_mod_cast h0))
    rw [div_self hlen, one_mul]
    norm_num [jsRound]

/-- Witness for claim C4: a one-student cohort with average 15 has success
rate 100, and the general formula applies to it. -/
theorem calculateSuccessRate_spec_witness :
    calculateSuccessRate [⟨5⟩] [⟨1, "Math", 2⟩] [⟨5, 1, 15⟩] = 100 :=
  (calculateSuccessRate_spec [⟨5⟩] [⟨1, "Math", 2⟩] [⟨5, 1, 15⟩]).2.2
    (by simp)
    (by
      intro s hs
      simp only [List.mem_singleton] at hs
      subst hs
      exact ⟨15, by norm_num [calculateStudentAverage, getStudentGrades,
        upsert, lookupKV, List.foldl], by norm_num⟩)

/-- The five distribution counters (dashboard copy in the unnamed source
file). -/
structure Distribution where
  excellent : ℕ
  veryGood : ℕ
  good : ℕ
  pass : ℕ
  fail : ℕ
  deriving DecidableEq, Repr

/-- One step of `getGradeDistribution`: bucket a student by average, skipping
students without one. -/
def distStep (modules : List Module) (grades : List GradeFact)
    (d : Distribution) (s : Student) : Distribution :=
  match calculateStudentAverage modules grades s.id with
  | none => d
  | some a =>
      if a ≥ 16 then ⟨d.excellent + 1, d.veryGood, d.good, d.pass, d.fail⟩
      else if a ≥ 14 then ⟨d.excellent, d.veryGood + 1, d.good, d.pass, d.fail⟩
      else if a ≥ 12 then ⟨d.excellent, d.veryGood, d.good + 1, d.pass, d.fail⟩
      else if a ≥ 10 then ⟨d.excellent, d.veryGood, d.good, d.pass + 1, d.fail⟩
      else ⟨d.excellent, d.veryGood, d.good, d.pass, d.fail + 1⟩

/-- `getGradeDistribution` (unnamed dashboard copy): bucket every student. -/
def getGradeDistribution (students : List Student) (modules : List Module)
    (grades : List GradeFact) : Distribution :=
  students.foldl (distStep modules grades) ⟨0, 0, 0, 0, 0⟩

/-- Total of the five distribution counters. -/
def Distribution.total (d : Distribution) : ℕ :=
  d.excellent + d.veryGood + d.good + d.pass + d.fail

/-- One bucketing step adds one to the total exactly when the student has a
computed average. -/
theorem distStep_total (modules : List Module) (grades : List GradeFact)
    (d : Distribution) (s : Student) :
    (distStep modules grades d s).total =
      d.total +
        (if (calculateStudentAverage modules grades s.id).isSome then 1
         else 0) := by
  unfold distStep
  cases calculateStudentAverage modules grades s.id with
  | none => simp
  | some a =>
      simp only [Option.isSome_some, if_true]
      split_ifs <;> simp [Distribution.total] <;> omega

/-- Claim C5: the five counts of `getGradeDistribution` sum exactly to the
number of students with a computed average. -/
theorem getGradeDistribution_total (students : List Student)
    (modules : List Module) (grades : List GradeFact) :
    (getGradeDistribution students modules grades).total =
      (students.filter
        (fun s => (calculateStudentAverage modules grades s.id).isSome)).length := by
  suffices h : ∀ (l : List Student) (d : Distribution),
      (l.foldl (distStep modules grades) d).total =
        d.total +
          (l.filter
            (fun s => (calculateStudentAverage modules grades s.id).isSome)).length by
    have h0 := h students ⟨0, 0, 0, 0, 0⟩
    simpa [getGradeDistribution, Distribution.total] using h0
  intro l
  induction l with
  | nil => intro d; simp
  | cons s rest ih =>
      intro d
      rw [List.foldl_cons, ih, distStep_total]
      by_cases hs : (calculateStudentAverage modules grades s.id).isSome
      · simp [hs]
        omega
      · simp [hs]

/-- `getStudentAbsences` (data.js): build the object mapping moduleId to
absence count for one student by iterating over all absence facts. -/
def getStudentAbsences (absences : List AbsenceFact) (studentId : Nat) :
    List (Nat × Nat) :=
  absences.foldl
    (fun acc a =>
      if a.studentId = studentId then upsert acc a.moduleId a.count else acc)
    []

/-- `getTotalAbsences` (data.js): sum the values of the per-student absence
object. -/
def getTotalAbsences (absences : List AbsenceFact) (studentId : Nat) : ℕ :=
  (getStudentAbsences absences studentId).foldl (fun sum p => sum + p.2) 0

/-- Specification-side rollup: sum of the stored counts of one student. -/
def absenceSum (studentId : Nat) : List AbsenceFact → ℕ
  | [] => 0
  | a :: rest =>
      (if a.studentId = studentId then a.count else 0) + absenceSum studentId rest

/-- Key uniqueness invariant for absence facts: no two records share the same
(studentId, moduleId) pair. -/
def UniqueAbsenceKeys (absences : List AbsenceFact) : Prop :=
  absences.Pairwise
    (fun a b => ¬(a.studentId = b.studentId ∧ a.moduleId = b.moduleId))

instance (absences : List AbsenceFact) : Decidable (UniqueAbsenceKeys absences) := by
  unfold UniqueAbsenceKeys
  infer_instance

/-- Value sum of an association list. -/
def valueSum (l : List (Nat × Nat)) : ℕ := (l.map Prod.snd).sum

/-- The left fold adding values computes the value sum. -/
theorem foldl_add_snd (l : List (Nat × Nat)) : ∀ n : ℕ,
    l.foldl (fun sum p => sum + p.2) n = n + valueSum l := by
  induction l with
  | nil => intro n; simp [valueSum]
  | cons p rest ih =>
      intro n
      rw [List.foldl_cons, ih]
      simp [valueSum]
      omega

/-- Upserting a fresh key appends its value to the value sum. -/
theorem valueSum_upsert (l : List (Nat × Nat)) (k : Nat) (v : ℕ)
    (hk : k ∉ l.map Prod.fst) : valueSum (upsert l k v) = valueSum l + v := by
  induction l with
  | nil => simp [upsert, valueSum]
  | cons q rest ih =>
      rcases q with ⟨k', v'⟩
      simp only [List.map_cons, List.mem_cons] at hk
      push_neg at hk
      rw [show upsert ((k', v') :: rest) k v =
        if k' = k then (k, v) :: rest else (k', v') :: upsert rest k v from rfl]
      rw [if_neg (fun h => hk.1 h.symm)]
      simp only [valueSum, List.map_cons, List.sum_cons] at ih ⊢
      rw [ih hk.2]
      omega

/-- Keys of an upserted association list are old keys or the new key. -/
theorem mem_keys_upsert {α : Type} (l : List (Nat × α)) (k : Nat) (v : α)
    (k' : Nat) (hk : k' ∈ (upsert l k v).map Prod.fst) :
    k' ∈ l.map Prod.fst ∨ k' = k := by
  rcases List.mem_map.mp hk with ⟨p, hp, hpk⟩
  rcases mem_upsert _ _ _ _ hp with h | h
  · left; exact hpk ▸ List.mem_map_of_mem Prod.fst h
  · right; rw [← hpk, h]

/-- Under key uniqueness, the absence object fold accumulates exactly the
specification-side sum of the student's counts. -/
theorem absences_foldl_sum (sid : Nat) :
    ∀ (l : List AbsenceFact) (acc : List (Nat × Nat)),
      l.Pairwise
        (fun a b => ¬(a.studentId = b.studentId ∧ a.moduleId = b.moduleId)) →
      (∀ a ∈ l, a.studentId = sid → a.moduleId ∉ acc.map Prod.fst) →
      valueSum
        (l.foldl
          (fun acc a =>
            if a.studentId = sid then upsert acc a.moduleId a.count else acc)
          acc)
      = valueSum acc + absenceSum sid l := by
  intro l
  induction l with
  | nil => intro acc _ _; simp [absenceSum]
  | cons a rest ih =>
      intro acc huniq hfresh
      rw [List.pairwise_cons] at huniq
      rw [List.foldl_cons]
      by_cases ha : a.studentId = sid
      · rw [if_pos ha]
        have hfresh' : ∀ b ∈ rest, b.studentId = sid →
            b.moduleId ∉ (upsert acc a.moduleId a.count).map Prod.fst := by
          intro b hb hbs hbk
          rcases mem_keys_upsert _ _ _ _ hbk with h | h
          · exact hfresh b (List.mem_cons_of_mem _ hb) hbs h
          · exact huniq.1 b hb ⟨ha.trans hbs.symm, h.symm⟩
        rw [ih _ huniq.2 hfresh',
          valueSum_upsert acc a.moduleId a.count
            (hfresh a (List.mem_cons_self _ _) ha)]
        rw [show absenceSum sid (a :: rest) =
          (if a.studentId = sid then a.count else 0) + absenceSum sid rest
          from rfl]
        rw [if_pos ha]
        omega
      · rw [if_neg ha]
        rw [ih _ huniq.2
          (fun b hb hbs => hfresh b (List.mem_cons_of_mem _ hb) hbs)]
        rw [show absenceSum sid (a :: rest) =
          (if a.studentId = sid then a.count else 0) + absenceSum sid rest
          from rfl]
        rw [if_neg ha]
        omega

/-- The specification-side sum distributes over list append. -/
theorem absenceSum_append (sid : Nat) (l₁ l₂ : List AbsenceFact) :
    absenceSum sid (l₁ ++ l₂) = absenceSum sid l₁ + absenceSum sid l₂ := by
  induction l₁ with
  | nil => simp [absenceSum]
  | cons a rest ih =>
      rw [List.cons_append]
      rw [show absenceSum sid (a :: (rest ++ l₂)) =
        (if a.studentId = sid then a.count else 0) + absenceSum sid (rest ++ l₂)
        from rfl]
      rw [show absenceSum sid (a :: rest) =
        (if a.studentId = sid then a.count else 0) + absenceSum sid rest
        from rfl]
      rw [ih]
      omega

/-- Claim C8: under the unique-key invariant, `getTotalAbsences` is the sum of
the student's stored counts (missing records contribute 0), and the result is
insensitive to adding a fresh zero-count record or removing a stored
zero-count record. -/
theorem getTotalAbsences_spec (absences : List AbsenceFact) (sid : Nat)
    (huniq : UniqueAbsenceKeys absences) :
    getTotalAbsences absences sid = absenceSum sid absences
    ∧ (∀ z : AbsenceFact, z.count = 0 →
        (∀ a ∈ absences,
          ¬(a.studentId = z.studentId ∧ a.moduleId = z.moduleId)) →
        getTotalAbsences (absences ++ [z]) sid = getTotalAbsences absences sid)
    ∧ ∀ l₁ l₂ (z : AbsenceFact), absences = l₁ ++ z :: l₂ → z.count = 0 →
        getTotalAbsences (l₁ ++ l₂) sid = getTotalAbsences absences sid := by
  have main : ∀ (l : List AbsenceFact),
      l.Pairwise
        (fun a b => ¬(a.studentId = b.studentId ∧ a.moduleId = b.moduleId)) →
      getTotalAbsences l sid = absenceSum sid l := by
    intro l hl
    unfold getTotalAbsences getStudentAbsences
    rw [foldl_add_snd]
    rw [absences_foldl_sum sid l [] hl (by simp)]
    simp [valueSum]
  refine ⟨main absences huniq, ?_, ?_⟩
  · intro z hz0 hzfresh
    have huniq' : (absences ++ [z]).Pairwise
        (fun a b => ¬(a.studentId = b.studentId ∧ a.moduleId = b.moduleId)) := by
      rw [List.pairwise_append]
      exact ⟨huniq, List.pairwise_singleton _ _,
        fun a ha b hb => by
          rw [List.mem_singleton] at hb
          subst hb
          exact hzfresh a ha⟩
    rw [main _ huniq', main _ huniq, absenceSum_append]
    rw [show absenceSum sid [z] =
      (if z.studentId = sid then z.count else 0) + absenceSum sid [] from rfl]
    rw [hz0]
    simp [absenceSum]
  · intro l₁ l₂ z heq hz0
    subst heq
    have hsub : (l₁ ++ l₂).Sublist (l₁ ++ z :: l₂) :=
      List.Sublist.append_left (List.sublist_cons_self z l₂) l₁
    rw [main _ (huniq.sublist hsub), main _ huniq, absenceSum_append,
      absenceSum_append]
    rw [show absenceSum sid (z :: l₂) =
      (if z.studentId = sid then z.count else 0) + absenceSum sid l₂ from rfl]
    rw [hz0]
    simp

/-- Witness for claim C8: a student with counts 3 and 2 totals 5, matching
the specification-side sum. -/
theorem getTotalAbsences_spec_witness :
    getTotalAbsences [⟨1, 1, 3⟩, ⟨1, 2, 2⟩, ⟨2, 1, 7⟩] 1 =
      absenceSum 1 [⟨1, 1, 3⟩, ⟨1, 2, 2⟩, ⟨2, 1, 7⟩] :=
  (getTotalAbsences_spec [⟨1, 1, 3⟩, ⟨1, 2, 2⟩, ⟨2, 1, 7⟩] 1 (by decide)).1

/-- Teacher branch of `updateAssessmentChart` (dashboard.js): for each module,
the rounded percentage of the cohort with a recorded grade for it, 0 when the
cohort is empty. -/
def assessmentCompletion (modules : List Module) (students : List Student)
    (grades : List GradeFact) : List (String × ℤ) :=
  modules.map (fun m =>
    let moduleGrades := grades.filter (fun g => g.moduleId = m.id)
    let totalPossible := students.length
    let completed := moduleGrades.length
    (m.name,
      if 0 < totalPossible then
        jsRound ((completed : ℚ) / (totalPossible : ℚ) * 100)
      else 0))

/-- Specification-side count of grade facts recorded for one module. -/
def gradedCount (mid : Nat) : List GradeFact → ℕ
  | [] => 0
  | g :: rest => (if g.moduleId = mid then 1 else 0) + gradedCount mid rest

/-- The filtered length of the code equals the specification-side count. -/
theorem filter_length_gradedCount (mid : Nat) (grades : List GradeFact) :
    (grades.filter (fun g => g.moduleId = mid)).length = gradedCount mid grades := by
  induction grades with
  | nil => rfl
  | cons g rest ih =>
      rw [show gradedCount mid (g :: rest) =
        (if g.moduleId = mid then 1 else 0) + gradedCount mid rest from rfl,
        ← ih]
      by_cases h : g.moduleId = mid
      · simp [List.filter_cons, h]
        omega
      · simp [List.filter_cons, h]

/-- Claim C9: each module's completion entry is its name with
`round(gradedCount / cohortSize * 100)`, and 0 for an empty cohort — the
guard means no division by zero is ever evaluated. -/
theorem assessmentCompletion_spec (modules : List Module)
    (students : List Student) (grades : List GradeFact) (i : ℕ) :
    (assessmentCompletion modules students grades)[i]? =
      modules[i]?.map (fun m =>
        (m.name,
          if students.length = 0 then 0
          else jsRound ((gradedCount m.id grades : ℚ) /
            (students.length : ℚ) * 100))) := by
  unfold assessmentCompletion
  rw [List.getElem?_map]
  cases modules[i]? with
  | none => rfl
  | some m =>
      simp only [Option.map_some']
      rw [filter_length_gradedCount]
      by_cases h : students.length = 0
      · rw [if_neg (by omega), if_pos h]
      · rw [if_pos (Nat.pos_of_ne_zero h), if_neg h]

/-- `calculateStudentAverage` copy from the unnamed dashboard source file,
textually identical to the dashboard.js copy. -/
def calculateStudentAverageP0 (modules : List Module) (grades : List GradeFact)
    (studentId : Nat) : Option ℚ :=
  let studentGrades := getStudentGrades grades studentId
  if modules.length = 0 ∨ studentGrades.length = 0 then none
  else
    let t := modules.foldl
      (fun acc m =>
        match lookupKV studentGrades m.id with
        | some grade => (acc.1 + grade * m.coefficient, acc.2 + m.coefficient)
        | none => acc)
      ((0 : ℚ), (0 : ℚ))
    if t.2 = 0 then none else some (t.1 / t.2)

/-- Result record of the results.js average computation. -/
structure AvgResult where
  average : Option ℚ
  hasGrades : Bool
  moduleCount : ℕ
  totalModules : Option ℕ
  deriving DecidableEq, Repr

/-- Specification-side count of modules with a recorded grade. -/
def gradedModules (studentGrades : List (Nat × ℚ)) : List Module → ℕ
  | [] => 0
  | m :: rest =>
      (match lookupKV studentGrades m.id with
       | some _ => 1
       | none => 0) + gradedModules studentGrades rest

/-- `calculateStudentAverage` (results.js): same accumulation with an extra
graded-module counter, returning a record; no empty-grades guard. -/
def calculateStudentAverageResults (modules : List Module)
    (grades : List GradeFact) (studentId : Nat) : AvgResult :=
  let studentGrades := getStudentGrades grades studentId
  if modules.length = 0 then ⟨none, false, 0, none⟩
  else
    let t := modules.foldl
      (fun acc m =>
        match lookupKV studentGrades m.id with
        | some grade =>
            (acc.1 + grade * m.coefficient, acc.2.1 + m.coefficient,
              acc.2.2 + 1)
        | none => acc)
      ((0 : ℚ), (0 : ℚ), (0 : ℕ))
    if t.2.1 = 0 then ⟨none, false, t.2.2, none⟩
    else ⟨some (t.1 / t.2.1), true, t.2.2, some modules.length⟩

/-- The results.js three-component fold computes the two sums and the graded
count. -/
theorem foldl_totals3 (studentGrades : List (Nat × ℚ)) (modules : List Module)
    (acc : ℚ × ℚ × ℕ) :
    modules.foldl
      (fun acc m =>
        match lookupKV studentGrades m.id with
        | some grade =>
            (acc.1 + grade * m.coefficient, acc.2.1 + m.coefficient,
              acc.2.2 + 1)
        | none => acc)
      acc
    = (acc.1 + totalPoints studentGrades modules,
       acc.2.1 + totalCoefficient studentGrades modules,
       acc.2.2 + gradedModules studentGrades modules) := by
  induction modules generalizing acc with
  | nil => simp [totalPoints, totalCoefficient, gradedModules]
  | cons m rest ih =>
      simp only [List.foldl_cons, totalPoints, totalCoefficient, gradedModules]
      cases h : lookupKV studentGrades m.id with
      | none =>
          rw [ih]
          refine Prod.ext ?_ (Prod.ext ?_ ?_) <;> simp
      | some g =>
          rw [ih]
          refine Prod.ext ?_ (Prod.ext ?_ ?_) <;> simp <;> try ring

/-- Closed form of the results.js average field. -/
theorem calculateStudentAverageResults_average (modules : List Module)
    (grades : List GradeFact) (sid : Nat) :
    (calculateStudentAverageResults modules grades sid).average =
      if modules.length = 0 then none
      else if totalCoefficient (getStudentGrades grades sid) modules = 0 then
        none
      else
        some (totalPoints (getStudentGrades grades sid) modules /
              totalCoefficient (getStudentGrades grades sid) modules) := by
  simp only [calculateStudentAverageResults]
  rw [foldl_totals3]
  by_cases hm : modules.length = 0
  · simp [hm]
  · simp only [if_neg hm]
    by_cases hden : totalCoefficient (getStudentGrades grades sid) modules = 0
    · simp [hden]
    · simp [hden]

/-- Claim C10: on identical snapshots, the dashboard.js average equals the
average field of the results.js record and the copy in the unnamed dashboard
file; in particular all three are absent on exactly the same inputs. -/
theorem calculateStudentAverage_copies_agree (modules : List Module)
    (grades : List GradeFact) (sid : Nat) :
    calculateStudentAverage modules grades sid =
      (calculateStudentAverageResults modules grades sid).average
    ∧ calculateStudentAverage modules grades sid =
      calculateStudentAverageP0 modules grades sid := by
  constructor
  · rw [calculateStudentAverage_eq, calculateStudentAverageResults_average]
    by_cases hm : modules.length = 0
    · rw [if_pos (Or.inl hm), if_pos hm]
    · by_cases hsg : (getStudentGrades grades sid).length = 0
      · rw [if_pos (Or.inr hsg), if_neg hm]
        have hz : totalCoefficient (getStudentGrades grades sid) modules = 0 := by
          rw [List.length_eq_zero.mp hsg]
          exact totalCoefficient_nil _
        rw [if_pos hz]
      · rw [if_neg (not_or.mpr ⟨hm, hsg⟩), if_neg hm]
  · rfl

/-- `deleteStudentGrades` (data.js): drop the grade facts of one student. -/
def deleteStudentGrades (studentId : Nat) (grades : List GradeFact) :
    List GradeFact :=
  grades.filter (fun g => g.studentId ≠ studentId)

/-- `deleteModuleGrades` (data.js): drop the grade facts of one module. -/
def deleteModuleGrades (moduleId : Nat) (grades : List GradeFact) :
    List GradeFact :=
  grades.filter (fun g => g.moduleId ≠ moduleId)

/-- The four persisted collections of data.js. -/
structure Store where
  students : List Student
  modules : List Module
  grades : List GradeFact
  absences : List AbsenceFact
  deriving DecidableEq, Repr

/-- `deleteStudent` (data.js): remove the student and their grades; the
absence collection is not touched by the source. -/
def deleteStudent (id : Nat) (st : Store) : Store :=
  ⟨st.students.filter (fun s => s.id ≠ id), st.modules,
    deleteStudentGrades id st.grades, st.absences⟩

/-- `deleteModule` (data.js): remove the module and its grades; the absence
collection is not touched by the source. -/
def deleteModule (id : Nat) (st : Store) : Store :=
  ⟨st.students, st.modules.filter (fun m => m.id ≠ id),
    deleteModuleGrades id st.grades, st.absences⟩

/-- Claim C6 counterexample: deleting student 1 (or module 1) removes the
grade facts but leaves the dependent absence fact in the store, so orphaned
absence records persist, contradicting the cascade invariant. -/
theorem deleteStudent_deleteModule_orphan_absences :
    ((deleteStudent 1 ⟨[⟨1⟩], [⟨1, "Math", 2⟩], [⟨1, 1, 12⟩],
        [⟨1, 1, 3⟩]⟩).grades = [])
    ∧ ((deleteStudent 1 ⟨[⟨1⟩], [⟨1, "Math", 2⟩], [⟨1, 1, 12⟩],
        [⟨1, 1, 3⟩]⟩).absences = [⟨1, 1, 3⟩])
    ∧ (∃ a ∈ (deleteStudent 1 ⟨[⟨1⟩], [⟨1, "Math", 2⟩], [⟨1, 1, 12⟩],
        [⟨1, 1, 3⟩]⟩).absences, a.studentId = 1)
    ∧ ((deleteModule 1 ⟨[⟨1⟩], [⟨1, "Math", 2⟩], [⟨1, 1, 12⟩],
        [⟨1, 1, 3⟩]⟩).grades = [])
    ∧ ((deleteModule 1 ⟨[⟨1⟩], [⟨1, "Math", 2⟩], [⟨1, 1, 12⟩],
        [⟨1, 1, 3⟩]⟩).absences = [⟨1, 1, 3⟩])
    ∧ ∃ a ∈ (deleteModule 1 ⟨[⟨1⟩], [⟨1, "Math", 2⟩], [⟨1, 1, 12⟩],
        [⟨1, 1, 3⟩]⟩).absences, a.moduleId = 1 := by
  refine ⟨rfl, rfl, ⟨⟨1, 1, 3⟩, by decide, rfl⟩, rfl, rfl,
    ⟨⟨1, 1, 3⟩, by decide, rfl⟩⟩

end School
